import Mathlib

/-!
Verification of the analytics-automation event pipeline against its
natural-language specification.  The definitions below are shallow
embeddings of the TypeScript sources:

* `packages/connector-service/src/server.ts` (webhook receiver,
  `ensureRepo`, push handler),
* `src/routes/ingest.ts` (schema resolution, route-graph matching,
  runtime-event ingestion),
* `src/routes/schema.ts` (PR approval flow),
* `scripts/analyzer-worker.ts` (inference persistence step),
* the tracker generator fallback (`getDefaultContextualSchema`).

The durable store (Supabase tables `repos`, `analyzer_runs`, `events`)
is modelled as in-memory lists; UUID generation is modelled by a fresh
counter.  Machine integers do not overflow in any modelled code path,
so numbers are plain `Nat`.
-/

namespace AA

/-! ## A small JSON value model (for jsonb columns and JS objects) -/

inductive Json where
  | null : Json
  | bool (b : Bool) : Json
  | num (n : Int) : Json
  | str (s : String) : Json
  | arr (xs : List Json) : Json
  | obj (fields : List (String × Json)) : Json

/-- Object field lookup, `undefined` modelled as `none`.
JS objects never hold duplicate keys; lookup takes the first binding. -/
def Json.getField : Json → String → Option Json
  | .obj fs, k => (fs.find? (fun p => p.1 == k)).map (·.2)
  | _, _ => none

/-- JS truthiness of a defined value (`undefined` is handled by `Option`). -/
def jsTruthy : Json → Bool
  | .null => false
  | .bool b => b
  | .num n => n != 0
  | .str s => s != ""
  | .arr _ => true
  | .obj _ => true

/-- JS `a || b` for `a` possibly `undefined`. -/
def jsOrElse (a : Option Json) (b : Json) : Json :=
  match a with
  | some j => if jsTruthy j then j else b
  | none => b

/-- JS `a ?? b` for `a` possibly `undefined` (`null`/`undefined` fall through). -/
def jsNullish (a : Option Json) (b : Json) : Json :=
  match a with
  | some .null => b
  | some j => j
  | none => b

/-- Key presence (`k in obj`). -/
def Json.hasKey (j : Json) (k : String) : Bool :=
  match j with
  | .obj fs => fs.any (fun p => p.1 == k)
  | _ => false

/-- Setting a key in a JS object: replaces the binding in place if the
key exists (keeping insertion order), else appends it.  Used to model
spread updates such as `{ ...metadata, node_id, edge_id }`. -/
def objSet : List (String × Json) → String → Json → List (String × Json)
  | [], k, v => [(k, v)]
  | (k1, v1) :: rest, k, v =>
      if k1 == k then (k1, v) :: rest else (k1, v1) :: objSet rest k v

/-- JS `String(x)` coercion for defined values, as far as the modelled
code exercises it (route patterns and node ids are strings or numbers). -/
def jsToString : Json → String
  | .null => "null"
  | .bool b => if b then "true" else "false"
  | .num n => toString n
  | .str s => s
  | .arr _ => ""
  | .obj _ => "[object Object]"

/-! ## Durable-store rows (`repos`, `analyzer_runs`, `events`) -/

structure RepoRow where
  id : Nat
  provider : String
  owner : String
  name : String
  default_branch : String
  installation_id : Option String
  deriving Repr, DecidableEq

inductive RunStatus where
  | queued | running | completed | failed
  deriving Repr, DecidableEq

structure RunRow where
  id : Nat
  repo_id : Nat
  commit_sha : Option String
  framework : Option String
  status : RunStatus
  event_type : String
  summary : Json

structure EventRow where
  id : Nat
  source : String
  repo_id : Nat
  commit_sha : Option String
  actor : Json
  ts : Nat
  verb : String
  metadata : Json

/-- The durable store.  Lists are in insertion order (`created_at`
ascending); `nextId` supplies fresh identifiers (modelling UUIDs). -/
structure DB where
  repos : List RepoRow
  runs : List RunRow
  events : List EventRow
  nextId : Nat

/-! ## `ensureRepo` (server.ts lines 87-113)

`const [owner, name] = String(full).split('/')`, then an upsert of all
columns on conflict key `(provider, owner, name)` with
`default_branch: args.default_branch ?? 'main'` and
`installation_id: args.installation_id ?? null`. -/

/-- Split off the characters before the first occurrence of `c`; the
second component is the remainder after it (`none` if `c` is absent). -/
def breakOnChar (c : Char) : List Char → List Char × Option (List Char)
  | [] => ([], none)
  | x :: xs =>
      if x = c then ([], some xs)
      else
        let r := breakOnChar c xs
        (x :: r.1, r.2)

def parseFullName (full : String) : String × String :=
  let r1 := breakOnChar '/' full.data
  match r1.2 with
  | none => (String.mk r1.1, "")
  | some rest => (String.mk r1.1, String.mk (breakOnChar '/' rest).1)

structure EnsureArgs where
  full_name : String
  default_branch : Option String
  installation_id : Option String

def repoKeyMatches (owner name : String) (r : RepoRow) : Bool :=
  r.provider == "github" && r.owner == owner && r.name == name

/-- The Supabase upsert replaces every supplied column of the
conflicting row (it is not a partial merge), and returns the stored row. -/
def ensureRepo (db : DB) (a : EnsureArgs) : DB × RepoRow :=
  let p := parseFullName a.full_name
  let defaultBranch := a.default_branch.getD "main"
  match db.repos.find? (repoKeyMatches p.1 p.2) with
  | some r =>
      let r2 := { r with default_branch := defaultBranch,
                         installation_id := a.installation_id }
      ({ db with repos :=
           db.repos.map (fun x => if repoKeyMatches p.1 p.2 x then r2 else x) },
       r2)
  | none =>
      let r2 : RepoRow :=
        { id := db.nextId, provider := "github", owner := p.1, name := p.2,
          default_branch := defaultBranch, installation_id := a.installation_id }
      ({ db with repos := db.repos ++ [r2], nextId := db.nextId + 1 }, r2)

/-! ## SHA-256 / HMAC-SHA256 / hex (the `crypto` calls in server.ts line 187)

`crypto.createHmac('sha256', WEBHOOK_SECRET).update(raw).digest('hex')`.
Bytes are `Nat` below 256; 32-bit words are `Nat` reduced mod `2^32`. -/

def w32 (x : Nat) : Nat := x % 4294967296

def rotr32 (n x : Nat) : Nat := w32 ((x >>> n) ||| (x <<< (32 - n)))

def not32 (x : Nat) : Nat := Nat.xor x 4294967295

def sha256K : List Nat :=
  [1116352408, 1899447441, 3049323471, 3921009573, 961987163,
   1508970993, 2453635748, 2870763221, 3624381080, 310598401,
   607225278, 1426881987, 1925078388, 2162078206, 2614888103,
   3248222580, 3835390401, 4022224774, 264347078, 604807628,
   770255983, 1249150122, 1555081692, 1996064986, 2554220882,
   2821834349, 2952996808, 3210313671, 3336571891, 3584528711,
   113926993, 338241895, 666307205, 773529912, 1294757372,
   1396182291, 1695183700, 1986661051, 2177026350, 2456956037,
   2730485921, 2820302411, 3259730800, 3345764771, 3516065817,
   3600352804, 4094571909, 275423344, 430227734, 506948616,
   659060556, 883997877, 958139571, 1322822218, 1537002063,
   1747873779, 1955562222, 2024104815, 2227730452, 2361852424,
   2428436474, 2756734187, 3204031479, 3329325298]

def sha256H0 : List Nat :=
  [1779033703, 3144134277, 1013904242, 2773480762,
   1359893119, 2600822924, 528734635, 1541459225]

def smallSigma0 (x : Nat) : Nat := Nat.xor (Nat.xor (rotr32 7 x) (rotr32 18 x)) (x >>> 3)
def smallSigma1 (x : Nat) : Nat := Nat.xor (Nat.xor (rotr32 17 x) (rotr32 19 x)) (x >>> 10)
def bigSigma0 (x : Nat) : Nat := Nat.xor (Nat.xor (rotr32 2 x) (rotr32 13 x)) (rotr32 22 x)
def bigSigma1 (x : Nat) : Nat := Nat.xor (Nat.xor (rotr32 6 x) (rotr32 11 x)) (rotr32 25 x)
def chFn (e f g : Nat) : Nat := Nat.xor (e &&& f) (not32 e &&& g)
def majFn (a b c : Nat) : Nat := Nat.xor (Nat.xor (a &&& b) (a &&& c)) (b &&& c)

/-- Big-endian 4-byte words from bytes. -/
def bytesToWords : List Nat → List Nat
  | b0 :: b1 :: b2 :: b3 :: rest =>
      (b0 * 16777216 + b1 * 65536 + b2 * 256 + b3) :: bytesToWords rest
  | _ => []

/-- Extend the 16 block words to the 64-entry message schedule. -/
def sha256Schedule (w16 : List Nat) : List Nat :=
  (List.range 48).foldl
    (fun w _ =>
      let n := w.length
      let x := w32 (smallSigma1 (w.getD (n - 2) 0) + w.getD (n - 7) 0 +
                    smallSigma0 (w.getD (n - 15) 0) + w.getD (n - 16) 0)
      w ++ [x])
    w16

def compressStep (st : List Nat) (kw : Nat × Nat) : List Nat :=
  match st with
  | [a, b, c, d, e, f, g, h] =>
      let t1 := w32 (h + bigSigma1 e + chFn e f g + kw.1 + kw.2)
      let t2 := w32 (bigSigma0 a + majFn a b c)
      [w32 (t1 + t2), a, b, c, w32 (d + t1), e, f, g]
  | _ => st

def processBlock (h : List Nat) (block : List Nat) : List Nat :=
  let w := sha256Schedule (bytesToWords block)
  let st := (sha256K.zip w).foldl compressStep h
  (h.zip st).map (fun p => w32 (p.1 + p.2))

def chunks64 (l : List Nat) : List (List Nat) :=
  if h : l = [] then [] else l.take 64 :: chunks64 (l.drop 64)
termination_by l.length
decreasing_by
  simp only [List.length_drop]
  have : 0 < l.length := List.length_pos.mpr h
  omega

/-- 8-byte big-endian encoding of the bit length. -/
def len64be (n : Nat) : List Nat :=
  [(n >>> 56) &&& 255, (n >>> 48) &&& 255, (n >>> 40) &&& 255, (n >>> 32) &&& 255,
   (n >>> 24) &&& 255, (n >>> 16) &&& 255, (n >>> 8) &&& 255, n &&& 255]

def sha256Pad (msg : List Nat) : List Nat :=
  let z := (119 - msg.length % 64) % 64
  msg ++ [128] ++ List.replicate z 0 ++ len64be (msg.length * 8)

def wordBytes (w : Nat) : List Nat :=
  [(w >>> 24) &&& 255, (w >>> 16) &&& 255, (w >>> 8) &&& 255, w &&& 255]

def sha256 (msg : List Nat) : List Nat :=
  (((chunks64 (sha256Pad msg)).foldl processBlock sha256H0).map wordBytes).flatten

/-- HMAC-SHA256 with byte-list key and message (block size 64). -/
def hmacSha256 (key msg : List Nat) : List Nat :=
  let k0 := if 64 < key.length then sha256 key else key
  let kpad := k0 ++ List.replicate (64 - k0.length) 0
  let ipad := kpad.map (fun b => Nat.xor b 54)
  let opad := kpad.map (fun b => Nat.xor b 92)
  sha256 (opad ++ sha256 (ipad ++ msg))

/-- Lowercase hex digit as an ASCII byte. -/
def hexDigit (n : Nat) : Nat := if n < 10 then 48 + n else 87 + n

/-- Lowercase hex encoding of a byte list, as ASCII bytes. -/
def hexBytes : List Nat → List Nat
  | [] => []
  | b :: bs => hexDigit (b / 16) :: hexDigit (b % 16) :: hexBytes bs

def asciiBytes (s : String) : List Nat := s.data.map (fun c => c.toNat)

/-- `'sha256=' + hmac.digest('hex')` as the byte sequence the receiver
compares against the `x-hub-signature-256` header bytes. -/
def expectedSigBytes (secret raw : List Nat) : List Nat :=
  asciiBytes "sha256=" ++ hexBytes (hmacSha256 secret raw)

/-! ## Webhook receiver (`POST /webhooks/github`, server.ts lines 172-352)

Signature verification runs first; `crypto.timingSafeEqual` throws a
`RangeError` on buffers of unequal byte length, which the handler's
catch-all turns into a 500 response.  The event dispatch then inserts
`analyzer_runs` rows.  The `x-hub-signature-256` header and the raw
body are byte lists; a missing header is `none`. -/

inductive SigCheck where
  | noRawBody | noSecret | lengthMismatch | mismatch | valid
  deriving Repr, DecidableEq

def verifySignature (secret : List Nat) (raw : Option (List Nat))
    (sig : Option (List Nat)) : SigCheck :=
  match raw with
  | none => .noRawBody
  | some r =>
      if secret.isEmpty then .noSecret
      else
        let expected := expectedSigBytes secret r
        match sig with
        | none => .mismatch
        | some s =>
            if s.length ≠ expected.length then .lengthMismatch
            else if s = expected then .valid else .mismatch

/-- `payload.repositories[..]` entries and `payload.repository`. -/
structure PayloadRepo where
  full_name : String
  default_branch : Option String

structure HeadCommit where
  id : String
  addedCount : Nat
  removedCount : Nat
  modifiedCount : Nat

/-- The parsed webhook body fields the handlers read. -/
structure WebhookBody where
  installation_id : Option String
  repositories : List PayloadRepo
  repositories_added : List PayloadRepo
  repositories_removed : List PayloadRepo
  repository : Option PayloadRepo
  before : Option String
  after : Option String
  head_commit : Option HeadCommit
  ref : Option String
  sender_login : Option String
  pusher_name : Option String
  compare : Option String

structure WebhookRequest where
  rawBody : Option (List Nat)
  signature : Option (List Nat)
  event : String
  body : WebhookBody

inductive WebhookResponse where
  | unauthorized (msg : String)
  | misconfigured
  | internalError
  | okNoRepo
  | okDedup (repo_id : Nat) (sha : String)
  | okPush (repo_id : Nat) (sha : Option String)
  | okInstallation (repos : Nat)
  | okInstRepos (added removed : Nat)
  | okIgnored (event : String)
  deriving Repr, DecidableEq

def optJsonStr : Option String → Json
  | some s => .str s
  | none => .null

/-- JS `a || b` over possibly absent strings (empty string is falsy). -/
def strTruthyOr (a b : Option String) : Option String :=
  match a with
  | some s => if s == "" then b else some s
  | none => b

def findRepoId (db : DB) (full : String) : Option Nat :=
  let p := parseFullName full
  (db.repos.find? (repoKeyMatches p.1 p.2)).map (·.id)

def insertRun (db : DB) (mk : Nat → RunRow) : DB :=
  { db with runs := db.runs ++ [mk db.nextId], nextId := db.nextId + 1 }

/-- `installation` events: ensure each repository, then enqueue a run
for it (commit_sha null). -/
def handleInstallation (db : DB) (b : WebhookBody) : DB × WebhookResponse :=
  let db2 := b.repositories.foldl
    (fun acc r =>
      let e := ensureRepo acc
        { full_name := r.full_name,
          default_branch := some (r.default_branch.getD "main"),
          installation_id := b.installation_id }
      match findRepoId e.1 r.full_name with
      | some rid =>
          insertRun e.1 (fun i =>
            { id := i, repo_id := rid, commit_sha := none, framework := none,
              status := .queued, event_type := "installation",
              summary := Json.obj
                [("installationId", optJsonStr b.installation_id),
                 ("repo", Json.str r.full_name)] })
      | none => e.1)
    db
  (db2, .okInstallation b.repositories.length)

/-- `installation_repositories` events: enqueue a run for each added
repository (after ensuring it) and for each removed repository. -/
def handleInstRepos (db : DB) (b : WebhookBody) : DB × WebhookResponse :=
  let dbA := b.repositories_added.foldl
    (fun acc r =>
      let e := ensureRepo acc
        { full_name := r.full_name,
          default_branch := some (r.default_branch.getD "main"),
          installation_id := b.installation_id }
      insertRun e.1 (fun i =>
        { id := i, repo_id := e.2.id, commit_sha := none, framework := none,
          status := .queued, event_type := "installation_repositories",
          summary := Json.obj
            [("action", Json.str "added"),
             ("installationId", optJsonStr b.installation_id),
             ("repo", Json.str r.full_name)] }))
    db
  let dbR := b.repositories_removed.foldl
    (fun acc r =>
      let rid := findRepoId acc r.full_name
      insertRun acc (fun i =>
        { id := i, repo_id := rid.getD 0, commit_sha := none, framework := none,
          status := .queued, event_type := "installation_repositories",
          summary := Json.obj
            [("action", Json.str "removed"),
             ("installationId", optJsonStr b.installation_id),
             ("repo", Json.str r.full_name)] }))
    dbA
  (dbR, .okInstRepos b.repositories_added.length b.repositories_removed.length)

/-- `const headSha = payload.after ?? payload.head_commit?.id ?? null`. -/
def pushHeadSha (b : WebhookBody) : Option String :=
  b.after.orElse (fun _ => b.head_commit.map (·.id))

def pushEnsureArgs (repo : PayloadRepo) (b : WebhookBody) : EnsureArgs :=
  { full_name := repo.full_name,
    default_branch := some (repo.default_branch.getD "main"),
    installation_id := b.installation_id }

/-- JS `str.split(c)` (structural, so that proofs can evaluate it). -/
def splitChar (c : Char) : List Char → List (List Char)
  | [] => [[]]
  | x :: xs =>
      if x = c then [] :: splitChar c xs
      else
        match splitChar c xs with
        | [] => [[x]]
        | seg :: rest => (x :: seg) :: rest

/-- `payload.ref.split('/').pop()`. -/
def lastSegment (s : String) : String :=
  String.mk ((splitChar '/' s.data).getLastD [])

/-- The jsonb `summary` column built for a push run (lines 312-326). -/
def pushSummary (b : WebhookBody) : Json :=
  let branch := b.ref.map (fun r => lastSegment r)
  let actor := strTruthyOr b.sender_login b.pusher_name
  Json.obj
    [("compare", optJsonStr b.compare),
     ("base_sha", optJsonStr b.before),
     ("head_sha", optJsonStr (pushHeadSha b)),
     ("context", Json.obj [("branch", optJsonStr branch), ("actor", optJsonStr actor)]),
     ("stats", Json.obj
       [("added", Json.num ((b.head_commit.map (fun hc => Int.ofNat hc.addedCount)).getD 0)),
        ("removed", Json.num ((b.head_commit.map (fun hc => Int.ofNat hc.removedCount)).getD 0)),
        ("modified", Json.num ((b.head_commit.map (fun hc => Int.ofNat hc.modifiedCount)).getD 0))])]

/-- `push` events (lines 280-344): ensure the repository, dedupe on
`(repo_id, commit_sha = headSha)` before inserting a queued run. -/
def handlePush (db : DB) (b : WebhookBody) : DB × WebhookResponse :=
  match b.repository with
  | none => (db, .okNoRepo)
  | some repo =>
      let e := ensureRepo db (pushEnsureArgs repo b)
      let db1 := e.1
      let ensured := e.2
      let dedup :=
        match pushHeadSha b with
        | some h => db1.runs.any (fun r => r.repo_id == ensured.id && r.commit_sha == some h)
        | none => false
      if dedup then
        (db1, .okDedup ensured.id ((pushHeadSha b).getD ""))
      else
        (insertRun db1 (fun i =>
           { id := i, repo_id := ensured.id, commit_sha := pushHeadSha b,
             framework := none, status := .queued, event_type := "push",
             summary := pushSummary b }),
         .okPush ensured.id (pushHeadSha b))

def dispatchEvent (db : DB) (event : String) (b : WebhookBody) : DB × WebhookResponse :=
  if event == "installation" then handleInstallation db b
  else if event == "installation_repositories" then handleInstRepos db b
  else if event == "push" then handlePush db b
  else (db, .okIgnored event)

/-- The whole `POST /webhooks/github` route: verification, then dispatch. -/
def handleWebhook (db : DB) (secret : List Nat) (req : WebhookRequest) :
    DB × WebhookResponse :=
  match verifySignature secret req.rawBody req.signature with
  | .noRawBody => (db, .unauthorized "missing raw body")
  | .noSecret => (db, .misconfigured)
  | .lengthMismatch => (db, .internalError)
  | .mismatch => (db, .unauthorized "invalid signature")
  | .valid => dispatchEvent db req.event req.body

/-! ## Helper lemmas about the crypto layer -/

theorem compressStep_length (st : List Nat) (kw : Nat × Nat) (h : st.length = 8) :
    (compressStep st kw).length = 8 := by
  rcases st with _|⟨a,_|⟨b,_|⟨c,_|⟨d,_|⟨e,_|⟨f,_|⟨g,_|⟨h8,_|⟨x,t⟩⟩⟩⟩⟩⟩⟩⟩⟩ <;>
    simp_all [compressStep]

theorem foldl_compressStep_length (l : List (Nat × Nat)) (st : List Nat)
    (h : st.length = 8) : (l.foldl compressStep st).length = 8 := by
  induction l generalizing st with
  | nil => simpa
  | cons x l ih => exact ih _ (compressStep_length _ _ h)

theorem processBlock_length (h b : List Nat) (hh : h.length = 8) :
    (processBlock h b).length = 8 := by
  unfold processBlock
  rw [List.length_map, List.length_zip, hh,
      foldl_compressStep_length _ _ hh]
  rfl

theorem foldl_processBlock_length (bl : List (List Nat)) (st : List Nat)
    (h : st.length = 8) : (bl.foldl processBlock st).length = 8 := by
  induction bl generalizing st with
  | nil => simpa
  | cons x bl ih => exact ih _ (processBlock_length _ _ h)

theorem flatten_wordBytes_length (l : List Nat) :
    ((l.map wordBytes).flatten).length = 4 * l.length := by
  induction l with
  | nil => rfl
  | cons a l ih => simp [wordBytes, ih]; omega

theorem sha256_length (msg : List Nat) : (sha256 msg).length = 32 := by
  unfold sha256
  rw [flatten_wordBytes_length, foldl_processBlock_length _ _ (by rfl)]

theorem sha256_lt_256 (msg : List Nat) : ∀ b ∈ sha256 msg, b < 256 := by
  unfold sha256
  intro b hb
  simp only [List.mem_flatten, List.mem_map] at hb
  obtain ⟨l, ⟨w, _, hw⟩, hbl⟩ := hb
  subst hw
  simp only [wordBytes, List.mem_cons, List.not_mem_nil, or_false] at hbl
  have h255 : ∀ x : Nat, x &&& 255 ≤ 255 := fun x => Nat.and_le_right
  rcases hbl with h | h | h | h <;> subst h <;>
    exact Nat.lt_succ_of_le (h255 _)

theorem hmacSha256_length (k m : List Nat) : (hmacSha256 k m).length = 32 :=
  sha256_length _

theorem hmacSha256_lt_256 (k m : List Nat) : ∀ b ∈ hmacSha256 k m, b < 256 :=
  sha256_lt_256 _

theorem hexBytes_length (l : List Nat) : (hexBytes l).length = 2 * l.length := by
  induction l with
  | nil => rfl
  | cons a l ih => simp [hexBytes, ih]; omega

theorem hexDigit_inj {a b : Nat} (ha : a < 16) (hb : b < 16)
    (h : hexDigit a = hexDigit b) : a = b := by
  unfold hexDigit at h
  split at h <;> split at h <;> omega

theorem hexBytes_inj (l1 : List Nat) : ∀ l2, (∀ b ∈ l1, b < 256) →
    (∀ b ∈ l2, b < 256) → hexBytes l1 = hexBytes l2 → l1 = l2 := by
  induction l1 with
  | nil =>
      intro l2 _ _ h
      cases l2 with
      | nil => rfl
      | cons b t => simp [hexBytes] at h
  | cons a t ih =>
      intro l2 h1 h2 h
      cases l2 with
      | nil => simp [hexBytes] at h
      | cons b t2 =>
          simp only [hexBytes, List.cons.injEq] at h
          obtain ⟨e1, e2, e3⟩ := h
          have ha : a < 256 := h1 a (by simp)
          have hb : b < 256 := h2 b (by simp)
          have hd1 := hexDigit_inj (by omega) (by omega) e1
          have hd2 := hexDigit_inj (by omega) (by omega) e2
          have hab : a = b := by omega
          subst hab
          rw [ih t2 (fun x hx => h1 x (by simp [hx]))
                (fun x hx => h2 x (by simp [hx])) e3]

theorem expectedSigBytes_length (s r : List Nat) :
    (expectedSigBytes s r).length = 71 := by
  unfold expectedSigBytes asciiBytes
  rw [List.length_append, List.length_map, hexBytes_length, hmacSha256_length]
  rfl

theorem expectedSigBytes_inj (secret r1 r2 : List Nat)
    (h : hmacSha256 secret r1 ≠ hmacSha256 secret r2) :
    expectedSigBytes secret r1 ≠ expectedSigBytes secret r2 := by
  intro he
  unfold expectedSigBytes at he
  have h2 : hexBytes (hmacSha256 secret r1) = hexBytes (hmacSha256 secret r2) :=
    List.append_cancel_left he
  exact h (hexBytes_inj _ _ (hmacSha256_lt_256 _ _) (hmacSha256_lt_256 _ _) h2)

/-! ## Helper lemmas about `ensureRepo` and the push handler -/

theorem find?_map_replace {α : Type} (p : α → Bool) (r2 : α) (hp : p r2 = true)
    (l : List α) :
    (l.map (fun x => if p x then r2 else x)).find? p =
      if (l.find? p).isSome then some r2 else none := by
  induction l with
  | nil => rfl
  | cons a l ih => by_cases ha : p a <;> simp [List.find?_cons, ha, hp, ih]

theorem repoKeyMatches_update (o n : String) (r : RepoRow) (b : String)
    (i : Option String) :
    repoKeyMatches o n { r with default_branch := b, installation_id := i }
      = repoKeyMatches o n r := rfl

/-- After an upsert, the row returned is exactly the row stored under the
natural key. -/
theorem ensureRepo_find (db : DB) (a : EnsureArgs) :
    (ensureRepo db a).1.repos.find?
        (repoKeyMatches (parseFullName a.full_name).1 (parseFullName a.full_name).2)
      = some (ensureRepo db a).2 := by
  rcases h : db.repos.find?
      (repoKeyMatches (parseFullName a.full_name).1 (parseFullName a.full_name).2)
    with _ | r
  · have hall := List.find?_eq_none.mp h
    simp only [ensureRepo, h]
    rw [List.find?_append, h]
    simp [List.find?_cons, repoKeyMatches]
  · have hr : repoKeyMatches (parseFullName a.full_name).1
        (parseFullName a.full_name).2 r = true := List.find?_some h
    simp only [ensureRepo, h]
    rw [find?_map_replace _ _ (by rw [repoKeyMatches_update]; exact hr), h]
    rfl

theorem ensureRepo_runs (db : DB) (a : EnsureArgs) :
    (ensureRepo db a).1.runs = db.runs := by
  rcases h : db.repos.find?
      (repoKeyMatches (parseFullName a.full_name).1 (parseFullName a.full_name).2)
    with _ | r <;> simp [ensureRepo, h]

theorem ensureRepo_events (db : DB) (a : EnsureArgs) :
    (ensureRepo db a).1.events = db.events := by
  rcases h : db.repos.find?
      (repoKeyMatches (parseFullName a.full_name).1 (parseFullName a.full_name).2)
    with _ | r <;> simp [ensureRepo, h]

/-- Running the upsert against any store holding the repos produced by a
previous upsert with the same full name updates that same row in place. -/
theorem ensureRepo_second (db db2 : DB) (a a2 : EnsureArgs)
    (hfull : a2.full_name = a.full_name)
    (hrepos : db2.repos = (ensureRepo db a).1.repos) :
    (ensureRepo db2 a2).2 =
      { (ensureRepo db a).2 with
          default_branch := a2.default_branch.getD "main",
          installation_id := a2.installation_id } := by
  have hfind : db2.repos.find?
      (repoKeyMatches (parseFullName a2.full_name).1 (parseFullName a2.full_name).2)
      = some (ensureRepo db a).2 := by
    rw [hrepos, hfull]; exact ensureRepo_find db a
  simp [ensureRepo, hfind]

/-! ## C8: `ensure` upsert semantics -/

/-- Runs with the given `(repo_id, commit_sha)` key. -/
def countRunsFor (db : DB) (rid : Nat) (sha : String) : Nat :=
  (db.runs.filter (fun r => r.repo_id == rid && r.commit_sha == some sha)).length

def emptyDB : DB := { repos := [], runs := [], events := [], nextId := 0 }

/-- C8 counterexample: after storing `default_branch = "dev"`, a second
`ensure` call that omits `default_branch` and `installation_id` does NOT
leave them unchanged — the upsert writes the substituted defaults
(`'main'` and `null`) over the stored values. -/
theorem ensureRepo_omitted_fields_overwritten :
    (ensureRepo (ensureRepo emptyDB ⟨"acme/site", some "dev", some "77"⟩).1
        ⟨"acme/site", none, none⟩).2.default_branch = "main"
    ∧ (ensureRepo (ensureRepo emptyDB ⟨"acme/site", some "dev", some "77"⟩).1
        ⟨"acme/site", none, none⟩).2.installation_id = none
    ∧ ((ensureRepo (ensureRepo emptyDB ⟨"acme/site", some "dev", some "77"⟩).1
        ⟨"acme/site", none, none⟩).2.default_branch = "dev" → False) := by
  refine ⟨by decide, by decide, by decide⟩

/-- C8 amended: `ensureRepo` is an upsert on `(provider, owner, name)`
that is last-write-wins on every column, with `'main'` substituted for an
omitted `default_branch` and `null` for an omitted `installation_id`; the
second call keeps the durable row id and its result is what is stored. -/
theorem ensureRepo_last_write_wins (db : DB) (full : String)
    (b1 b2 i1 i2 : Option String) :
    (ensureRepo (ensureRepo db ⟨full, b1, i1⟩).1 ⟨full, b2, i2⟩).2.default_branch
        = b2.getD "main"
    ∧ (ensureRepo (ensureRepo db ⟨full, b1, i1⟩).1 ⟨full, b2, i2⟩).2.installation_id
        = i2
    ∧ (ensureRepo (ensureRepo db ⟨full, b1, i1⟩).1 ⟨full, b2, i2⟩).2.id
        = (ensureRepo db ⟨full, b1, i1⟩).2.id
    ∧ (ensureRepo (ensureRepo db ⟨full, b1, i1⟩).1 ⟨full, b2, i2⟩).1.repos.find?
          (repoKeyMatches (parseFullName full).1 (parseFullName full).2)
        = some (ensureRepo (ensureRepo db ⟨full, b1, i1⟩).1 ⟨full, b2, i2⟩).2 := by
  have h2 := ensureRepo_second db (ensureRepo db ⟨full, b1, i1⟩).1
      ⟨full, b1, i1⟩ ⟨full, b2, i2⟩ rfl rfl
  refine ⟨by rw [h2], by rw [h2], by rw [h2], ?_⟩
  exact ensureRepo_find (ensureRepo db ⟨full, b1, i1⟩).1 ⟨full, b2, i2⟩

/-! ## C1: push redelivery produces exactly one run per `(repo, head_sha)` -/

theorem handlePush_insert_eq (db : DB) (b : WebhookBody) (repo : PayloadRepo)
    (h : String) (hrepo : b.repository = some repo)
    (hhead : pushHeadSha b = some h)
    (hany : ((ensureRepo db (pushEnsureArgs repo b)).1.runs.any
        (fun r => r.repo_id == (ensureRepo db (pushEnsureArgs repo b)).2.id
                  && r.commit_sha == some h)) = false) :
    handlePush db b =
      (insertRun (ensureRepo db (pushEnsureArgs repo b)).1 (fun i =>
         { id := i, repo_id := (ensureRepo db (pushEnsureArgs repo b)).2.id,
           commit_sha := pushHeadSha b, framework := none,
           status := RunStatus.queued, event_type := "push",
           summary := pushSummary b }),
       WebhookResponse.okPush (ensureRepo db (pushEnsureArgs repo b)).2.id
         (pushHeadSha b)) := by
  simp only [handlePush, hrepo, hhead, hany]
  rfl

theorem handlePush_dedup_eq (db : DB) (b : WebhookBody) (repo : PayloadRepo)
    (h : String) (hrepo : b.repository = some repo)
    (hhead : pushHeadSha b = some h)
    (hany : ((ensureRepo db (pushEnsureArgs repo b)).1.runs.any
        (fun r => r.repo_id == (ensureRepo db (pushEnsureArgs repo b)).2.id
                  && r.commit_sha == some h)) = true) :
    handlePush db b =
      ((ensureRepo db (pushEnsureArgs repo b)).1,
       WebhookResponse.okDedup (ensureRepo db (pushEnsureArgs repo b)).2.id h) := by
  simp only [handlePush, hrepo, hhead, hany]
  rfl

/-- C1: for a push payload with a non-null head sha, delivering the same
event twice yields exactly one `analyzer_runs` row for
`(repository, head_sha)`: the handler queries before inserting, and the
redelivery is answered with a dedup success without a new insert. -/
theorem push_redelivery_single_run (db : DB) (b : WebhookBody)
    (repo : PayloadRepo) (h : String)
    (hrepo : b.repository = some repo)
    (hhead : pushHeadSha b = some h)
    (hzero : countRunsFor db (ensureRepo db (pushEnsureArgs repo b)).2.id h = 0) :
    countRunsFor (handlePush (handlePush db b).1 b).1
        (ensureRepo db (pushEnsureArgs repo b)).2.id h = 1
    ∧ (handlePush (handlePush db b).1 b).2
        = WebhookResponse.okDedup (ensureRepo db (pushEnsureArgs repo b)).2.id h
    ∧ (handlePush (handlePush db b).1 b).1.runs = (handlePush db b).1.runs := by
  have hruns1 : (ensureRepo db (pushEnsureArgs repo b)).1.runs = db.runs :=
    ensureRepo_runs db _
  have hzero' : ∀ r ∈ db.runs,
      ¬ (r.repo_id == (ensureRepo db (pushEnsureArgs repo b)).2.id
         && r.commit_sha == some h) = true := by
    have hnil : db.runs.filter
        (fun r => r.repo_id == (ensureRepo db (pushEnsureArgs repo b)).2.id
                  && r.commit_sha == some h) = [] :=
      List.length_eq_zero.mp hzero
    exact List.filter_eq_nil_iff.mp hnil
  have hany1 : ((ensureRepo db (pushEnsureArgs repo b)).1.runs.any
      (fun r => r.repo_id == (ensureRepo db (pushEnsureArgs repo b)).2.id
                && r.commit_sha == some h)) = false := by
    rw [hruns1, List.any_eq_false]
    exact hzero'
  have hfirst := handlePush_insert_eq db b repo h hrepo hhead hany1
  have hdb1runs : (handlePush db b).1.runs = db.runs ++
      [{ id := (ensureRepo db (pushEnsureArgs repo b)).1.nextId,
         repo_id := (ensureRepo db (pushEnsureArgs repo b)).2.id,
         commit_sha := pushHeadSha b, framework := none,
         status := RunStatus.queued, event_type := "push",
         summary := pushSummary b }] := by
    rw [hfirst]
    simp [insertRun, hruns1]
  have hdb1repos : (handlePush db b).1.repos =
      (ensureRepo db (pushEnsureArgs repo b)).1.repos := by
    rw [hfirst]
    rfl
  have hrow2 := ensureRepo_second db (handlePush db b).1
      (pushEnsureArgs repo b) (pushEnsureArgs repo b) rfl hdb1repos
  have hid2 : (ensureRepo (handlePush db b).1 (pushEnsureArgs repo b)).2.id
      = (ensureRepo db (pushEnsureArgs repo b)).2.id := by
    rw [hrow2]
  have hany2 : ((ensureRepo (handlePush db b).1 (pushEnsureArgs repo b)).1.runs.any
      (fun r => r.repo_id == (ensureRepo (handlePush db b).1 (pushEnsureArgs repo b)).2.id
                && r.commit_sha == some h)) = true := by
    rw [ensureRepo_runs, hdb1runs, hid2, List.any_append]
    simp [hhead]
  have hsecond : handlePush (handlePush db b).1 b =
      ((ensureRepo (handlePush db b).1 (pushEnsureArgs repo b)).1,
       WebhookResponse.okDedup (ensureRepo db (pushEnsureArgs repo b)).2.id h) := by
    rw [handlePush_dedup_eq (handlePush db b).1 b repo h hrepo hhead hany2, hid2]
  refine ⟨?_, ?_, ?_⟩
  · rw [hsecond]
    unfold countRunsFor
    rw [ensureRepo_runs, hdb1runs, List.filter_append]
    rw [List.length_append]
    have h0 : (db.runs.filter
        (fun r => r.repo_id == (ensureRepo db (pushEnsureArgs repo b)).2.id
                  && r.commit_sha == some h)).length = 0 := hzero
    rw [h0]
    simp [hhead]
  · rw [hsecond]
  · rw [hsecond, ensureRepo_runs, hdb1runs]

/-! ## C2 / C10: signature verification -/

/-- C2: the receiver accepts exactly when the claimed signature equals
`'sha256=' + hex(HMAC-SHA256(secret, raw))`; the correctly computed
signature verifies; any change to the signature string is rejected with
no handler run and no write; any body change that alters the HMAC digest
is rejected (collision-resistance of SHA-256 is the standard
cryptographic assumption, encoded here as the digest-inequality
hypothesis); a missing raw body or missing secret is rejected before any
event handler runs. -/
theorem webhook_signature_correct :
    (∀ (secret raw s : List Nat), secret ≠ [] →
       (verifySignature secret (some raw) (some s) = SigCheck.valid ↔
        s = expectedSigBytes secret raw))
    ∧ (∀ (secret raw : List Nat), secret ≠ [] →
       verifySignature secret (some raw) (some (expectedSigBytes secret raw))
         = SigCheck.valid)
    ∧ (∀ (db : DB) (secret : List Nat) (req : WebhookRequest) (raw s : List Nat),
       secret ≠ [] → req.rawBody = some raw → req.signature = some s →
       s ≠ expectedSigBytes secret raw →
       (handleWebhook db secret req).1 = db ∧
       ((handleWebhook db secret req).2 = WebhookResponse.unauthorized "invalid signature"
        ∨ (handleWebhook db secret req).2 = WebhookResponse.internalError))
    ∧ (∀ (secret raw raw2 : List Nat),
       hmacSha256 secret raw2 ≠ hmacSha256 secret raw →
       verifySignature secret (some raw2) (some (expectedSigBytes secret raw))
         ≠ SigCheck.valid)
    ∧ (∀ (db : DB) (secret : List Nat) (req : WebhookRequest),
       req.rawBody = none →
       handleWebhook db secret req = (db, WebhookResponse.unauthorized "missing raw body"))
    ∧ (∀ (db : DB) (req : WebhookRequest) (raw : List Nat),
       req.rawBody = some raw →
       handleWebhook db [] req = (db, WebhookResponse.misconfigured)) := by
  have hiff : ∀ (secret raw s : List Nat), secret ≠ [] →
      (verifySignature secret (some raw) (some s) = SigCheck.valid ↔
       s = expectedSigBytes secret raw) := by
    intro secret raw s hsec
    have hie : secret.isEmpty = false := by
      cases secret with
      | nil => exact absurd rfl hsec
      | cons a t => rfl
    constructor
    · intro hv
      by_cases hlen : s.length = (expectedSigBytes secret raw).length
      · by_cases heq : s = expectedSigBytes secret raw
        · exact heq
        · exfalso
          simp [verifySignature, hie, hlen, heq] at hv
      · exfalso
        simp [verifySignature, hie, hlen] at hv
    · intro he
      subst he
      simp [verifySignature, hie]
  refine ⟨hiff, ?_, ?_, ?_, ?_, ?_⟩
  · intro secret raw hsec
    exact (hiff secret raw _ hsec).mpr rfl
  · intro db secret req raw s hsec hraw hsig hne
    have hie : secret.isEmpty = false := by
      cases secret with
      | nil => exact absurd rfl hsec
      | cons a t => rfl
    by_cases hlen : s.length = (expectedSigBytes secret raw).length
    · have hv : verifySignature secret req.rawBody req.signature = SigCheck.mismatch := by
        rw [hraw, hsig]
        simp [verifySignature, hie, hlen, hne]
      constructor
      · simp [handleWebhook, hv]
      · left; simp [handleWebhook, hv]
    · have hv : verifySignature secret req.rawBody req.signature = SigCheck.lengthMismatch := by
        rw [hraw, hsig]
        simp [verifySignature, hie, hlen]
      constructor
      · simp [handleWebhook, hv]
      · right; simp [handleWebhook, hv]
  · intro secret raw raw2 hne
    cases hsec : secret with
    | nil =>
        intro hv
        simp [verifySignature] at hv
    | cons a t =>
        rw [← hsec]
        have hsec' : secret ≠ [] := by rw [hsec]; exact List.cons_ne_nil a t
        intro hv
        have he := (hiff secret raw2 _ hsec').mp hv
        exact expectedSigBytes_inj secret raw2 raw hne he.symm
  · intro db secret req hraw
    simp [handleWebhook, verifySignature, hraw]
  · intro db req raw hraw
    simp [handleWebhook, verifySignature, hraw]

/-- C2 witness: a correctly computed signature for a concrete secret and
body verifies. -/
theorem webhook_signature_correct_witness :
    verifySignature [107, 101, 121] (some [104, 105])
        (some (expectedSigBytes [107, 101, 121] [104, 105])) = SigCheck.valid :=
  webhook_signature_correct.2.1 [107, 101, 121] [104, 105] (by decide)

def demoBody : WebhookBody :=
  { installation_id := none, repositories := [], repositories_added := [],
    repositories_removed := [], repository := none, before := none,
    after := none, head_commit := none, ref := none, sender_login := none,
    pusher_name := none, compare := none }

def demoShortSigReq : WebhookRequest :=
  { rawBody := some [104], signature := some [48, 48], event := "push",
    body := demoBody }

/-- C10: a claimed signature whose byte length differs from the 71-byte
expected string makes `timingSafeEqual` throw, so the catch-all answers
500; an equal-length mismatch is answered 401; in both cases the store is
untouched. -/
theorem sig_length_mismatch_gives_500 :
    (∀ (db : DB) (secret : List Nat) (req : WebhookRequest) (raw s : List Nat),
       secret ≠ [] → req.rawBody = some raw → req.signature = some s →
       s.length ≠ 71 →
       handleWebhook db secret req = (db, WebhookResponse.internalError))
    ∧ (∀ (db : DB) (secret : List Nat) (req : WebhookRequest) (raw s : List Nat),
       secret ≠ [] → req.rawBody = some raw → req.signature = some s →
       s.length = 71 → s ≠ expectedSigBytes secret raw →
       handleWebhook db secret req = (db, WebhookResponse.unauthorized "invalid signature"))
    ∧ (∀ (secret raw : List Nat), (expectedSigBytes secret raw).length = 71) := by
  refine ⟨?_, ?_, expectedSigBytes_length⟩
  · intro db secret req raw s hsec hraw hsig hlen
    have hie : secret.isEmpty = false := by
      cases secret with
      | nil => exact absurd rfl hsec
      | cons a t => rfl
    have hlen' : s.length ≠ (expectedSigBytes secret raw).length := by
      rw [expectedSigBytes_length]; exact hlen
    have hv : verifySignature secret req.rawBody req.signature = SigCheck.lengthMismatch := by
      rw [hraw, hsig]
      simp [verifySignature, hie, hlen']
    simp [handleWebhook, hv]
  · intro db secret req raw s hsec hraw hsig hlen hne
    have hie : secret.isEmpty = false := by
      cases secret with
      | nil => exact absurd rfl hsec
      | cons a t => rfl
    have hlen' : s.length = (expectedSigBytes secret raw).length := by
      rw [expectedSigBytes_length]; exact hlen
    have hv : verifySignature secret req.rawBody req.signature = SigCheck.mismatch := by
      rw [hraw, hsig]
      simp [verifySignature, hie, hlen', hne]
    simp [handleWebhook, hv]

/-- C10 witness: a 2-byte signature header yields the 500 path on a
concrete request. -/
theorem sig_length_mismatch_gives_500_witness :
    handleWebhook emptyDB [1] demoShortSigReq = (emptyDB, WebhookResponse.internalError) :=
  sig_length_mismatch_gives_500.1 emptyDB [1] demoShortSigReq [104] [48, 48]
    (by decide) rfl rfl (by decide)

def demoPushRepo : PayloadRepo := { full_name := "acme/site", default_branch := some "main" }

def demoPushBody : WebhookBody :=
  { demoBody with
    repository := some demoPushRepo,
    before := some "00base",
    after := some "c0ffee123",
    ref := some "refs/heads/main" }

/-- C1 witness: the concrete double delivery leaves exactly one run. -/
theorem push_redelivery_single_run_witness :
    countRunsFor (handlePush (handlePush emptyDB demoPushBody).1 demoPushBody).1
        (ensureRepo emptyDB (pushEnsureArgs demoPushRepo demoPushBody)).2.id "c0ffee123" = 1
    ∧ (handlePush (handlePush emptyDB demoPushBody).1 demoPushBody).2
        = WebhookResponse.okDedup
            (ensureRepo emptyDB (pushEnsureArgs demoPushRepo demoPushBody)).2.id "c0ffee123"
    ∧ (handlePush (handlePush emptyDB demoPushBody).1 demoPushBody).1.runs
        = (handlePush emptyDB demoPushBody).1.runs :=
  push_redelivery_single_run emptyDB demoPushBody demoPushRepo "c0ffee123" rfl rfl rfl

/-! ## `src/routes/ingest.ts`: schema resolution, route matching, ingest

`latestEventByVerb` is `order by ts desc limit 1` over
`(repo_id, verb)`; the model returns the first row among those with
maximal `ts` (the store leaves the tie order unspecified). -/

def latestEventByVerb (evs : List EventRow) (repoId : Nat) (verb : String) :
    Option EventRow :=
  (evs.filter (fun e => e.repo_id == repoId && e.verb == verb)).foldl
    (fun acc e =>
      match acc with
      | none => some e
      | some a => if a.ts < e.ts then some e else some a)
    none

def suggestedOf (e : Option EventRow) : Option Json :=
  e.bind (fun r => r.metadata.getField "suggested")

/-- Lines 261-267: `ovr?.metadata?.suggested || ai?.metadata?.suggested
|| { events: [] }`. -/
def resolveSchema (evs : List EventRow) (repoId : Nat) : Json :=
  jsOrElse (suggestedOf (latestEventByVerb evs repoId "schema_override"))
    (jsOrElse (suggestedOf (latestEventByVerb evs repoId "schema"))
      (Json.obj [("events", Json.arr [])]))

/-- First operand of a JS `||` chain that is truthy, else `none`
(modelling `x || y || null`). -/
def jsTruthyOpt : Option Json → Option Json
  | some j => if jsTruthy j then some j else none
  | none => none

def jsOrOpt (a b : Option Json) : Option Json :=
  match jsTruthyOpt a with
  | some j => some j
  | none => jsTruthyOpt b

/-- Lines 283-285: `(gro?.metadata)?.graph || (gra?.metadata)?.graph || null`. -/
def resolveGraph (evs : List EventRow) (repoId : Nat) : Option Json :=
  jsOrOpt
    ((latestEventByVerb evs repoId "route_graph_override").bind
      (fun r => r.metadata.getField "graph"))
    ((latestEventByVerb evs repoId "route_graph").bind
      (fun r => r.metadata.getField "graph"))

/-! ### `toRegexFromPattern` (lines 48-57)

```
const esc = s
  .replace(/[.*+?^$\x7b\x7d()|[\]\\]/g, '\\$&')
  .replace(/\\:splat/g, '.+')
  .replace(/\\:param/g, '[^/]+')
  .replace(/\\:([a-zA-Z_][a-zA-Z0-9_]*)/g, '[^/]+');
return new RegExp('^' + esc + '$');
```
The three substitution regexes demand a literal backslash before the
colon; the escape step never inserts one there (`:` is not in its
character class), which theorems below exercise. -/

def isMetaChar (c : Char) : Bool :=
  c = '.' || c = '*' || c = '+' || c = '?' || c = '^' || c = '$' ||
  c = Char.ofNat 123 || c = Char.ofNat 125 ||
  c = '(' || c = ')' || c = '|' || c = '[' || c = ']' || c = '\\'

def escapeMeta : List Char → List Char
  | [] => []
  | c :: cs => if isMetaChar c then '\\' :: c :: escapeMeta cs else c :: escapeMeta cs

def listStartsWith : List Char → List Char → Bool
  | [], _ => true
  | _ :: _, [] => false
  | p :: ps, c :: cs => p == c && listStartsWith ps cs

/-- JS `String.prototype.replace` with a global literal pattern:
leftmost, non-overlapping.  `fuel` is a structural-recursion device;
every step consumes at least one character, so `s.length` fuel is
always enough. -/
def replaceSubstrF : Nat → List Char → List Char → List Char → List Char
  | 0, _, _, s => s
  | _ + 1, [], _, s => s
  | _ + 1, _ :: _, _, [] => []
  | fuel + 1, p :: ps, repl, c :: cs =>
      if listStartsWith (p :: ps) (c :: cs) then
        repl ++ replaceSubstrF fuel (p :: ps) repl (cs.drop ps.length)
      else c :: replaceSubstrF fuel (p :: ps) repl cs

def replaceSubstr (pat repl s : List Char) : List Char :=
  replaceSubstrF s.length pat repl s

def isIdentStart (c : Char) : Bool :=
  ('a' ≤ c && c ≤ 'z') || ('A' ≤ c && c ≤ 'Z') || c = '_'

def isIdentChar (c : Char) : Bool :=
  isIdentStart c || ('0' ≤ c && c ≤ '9')

/-- The global replace of `/\\:([a-zA-Z_][a-zA-Z0-9_]*)/` by `[^/]+`
(fuelled as above; every step consumes at least one character). -/
def replaceEscIdentF : Nat → List Char → List Char
  | 0, s => s
  | _ + 1, [] => []
  | fuel + 1, '\\' :: ':' :: c :: rest =>
      if isIdentStart c then
        '[' :: '^' :: '/' :: ']' :: '+' ::
          replaceEscIdentF fuel (rest.dropWhile isIdentChar)
      else '\\' :: replaceEscIdentF fuel (':' :: c :: rest)
  | fuel + 1, x :: xs => x :: replaceEscIdentF fuel xs

def replaceEscIdent (s : List Char) : List Char :=
  replaceEscIdentF s.length s

/-- `String(pattern ?? '')`. -/
def jsStringOrEmpty : Option Json → String
  | none => ""
  | some .null => ""
  | some j => jsToString j

/-- The regex source built by `toRegexFromPattern` (without the `^`/`$`
anchors, which the matcher below realises as whole-string matching). -/
def toRegexSource (pat : Option Json) : List Char :=
  replaceEscIdent
    (replaceSubstr ['\\', ':', 'p', 'a', 'r', 'a', 'm'] ['[', '^', '/', ']', '+']
      (replaceSubstr ['\\', ':', 's', 'p', 'l', 'a', 't'] ['.', '+']
        (escapeMeta (jsStringOrEmpty pat).data)))

/-- Tokens of the regex fragment language `toRegexFromPattern` can emit:
escaped or plain literals, `[^/]+` and `.+`. -/
inductive RTok where
  | lit (c : Char)
  | anySeg
  | greedy
  deriving Repr, DecidableEq

def tokenizeRegex : List Char → List RTok
  | [] => []
  | '[' :: '^' :: '/' :: ']' :: '+' :: rest => .anySeg :: tokenizeRegex rest
  | '.' :: '+' :: rest => .greedy :: tokenizeRegex rest
  | '\\' :: c :: rest => .lit c :: tokenizeRegex rest
  | c :: rest => .lit c :: tokenizeRegex rest

/-- Anchored (whole-string) matching of the token list, with
backtracking.  `[^/]+` and `.+` consume one mandatory character and then
either hand over to the remaining tokens or keep consuming.  Every step
lowers `ts.length + cs.length`, so the supplied fuel is always enough. -/
def tmatchF : Nat → List RTok → List Char → Bool
  | 0, _, _ => false
  | _ + 1, [], [] => true
  | _ + 1, [], _ :: _ => false
  | _ + 1, .lit _ :: _, [] => false
  | fuel + 1, .lit c :: ts, d :: ds => c == d && tmatchF fuel ts ds
  | _ + 1, .anySeg :: _, [] => false
  | fuel + 1, .anySeg :: ts, d :: ds =>
      d != '/' && (tmatchF fuel ts ds || tmatchF fuel (.anySeg :: ts) ds)
  | _ + 1, .greedy :: _, [] => false
  | fuel + 1, .greedy :: ts, d :: ds =>
      tmatchF fuel ts ds || tmatchF fuel (.greedy :: ts) ds

/-- `regex.test(path)` for the compiled (anchored) token list. -/
def tmatch (ts : List RTok) (cs : List Char) : Bool :=
  tmatchF (ts.length + cs.length + 1) ts cs

def compiledTokens (pat : Option Json) : List RTok :=
  tokenizeRegex (toRegexSource pat)

/-- `String(n.id)` (an absent field prints as `undefined`). -/
def jsStringOfField (n : Json) (k : String) : String :=
  match n.getField k with
  | some j => jsToString j
  | none => "undefined"

/-- The node-matching loop of `POST /ingest` (lines 296-307):
`const pat = n?.pattern ?? n?.id`, first compiled matcher that accepts
the path wins, in declaration order. -/
def nodeMatchLoop (nodes : List Json) (path : String) : Option String :=
  match nodes with
  | [] => none
  | n :: rest =>
      let pat :=
        match n.getField "pattern" with
        | some .null => n.getField "id"
        | some j => some j
        | none => n.getField "id"
      if tmatch (compiledTokens pat) path.data then
        some (jsStringOfField n "id")
      else nodeMatchLoop rest path

/-! ### The `POST /ingest` handler (lines 256-328) -/

structure IngestBody where
  full : String
  source : String
  verb : String
  ts : Option Nat
  metadata : List (String × Json)

inductive IngestResponse where
  | badRequest (msg : String)
  | serverError (msg : String)
  | ok (node_id edge_id : Option String)
  deriving Repr, DecidableEq

def repoIdByFull (db : DB) (full : String) : Option Nat :=
  findRepoId db full

def eventsOf (schema : Json) : List Json :=
  match schema.getField "events" with
  | some (.arr xs) => xs
  | _ => []

/-- `events.find(e => e?.name === p.verb)`. -/
def eventNameMatches (e : Json) (verb : String) : Bool :=
  match e.getField "name" with
  | some (.str s) => s == verb
  | _ => false

def findEventSpec (schema : Json) (verb : String) : Option Json :=
  (eventsOf schema).find? (fun e => eventNameMatches e verb)

def requiredOf (eSpec : Json) : List Json :=
  match eSpec.getField "required" with
  | some (.arr xs) => xs
  | _ => []

/-- The first required name that is not a key of `metadata`
(`if (!(k in p.metadata))`, first hit returns). -/
def firstMissingRequired (eSpec : Json) (m : List (String × Json)) : Option Json :=
  (requiredOf eSpec).find? (fun k => !((Json.obj m).hasKey (jsToString k)))

def asStringField (m : List (String × Json)) (k : String) : Option String :=
  match (Json.obj m).getField k with
  | some (.str s) => some s
  | _ => none

/-- Modelled behaviour of WHATWG `new URL(u).pathname` (a library call)
for absolute http(s) URLs; anything else throws, which
`coercePathFromUrl` catches into `undefined`. -/
def urlPathname (u : String) : Option String :=
  let cs := u.data
  let rest :=
    if listStartsWith "http://".data cs then some (cs.drop 7)
    else if listStartsWith "https://".data cs then some (cs.drop 8)
    else none
  match rest with
  | none => none
  | some r =>
      let afterHost := r.dropWhile (fun c => c ≠ '/' && c ≠ '?' && c ≠ '#')
      match afterHost with
      | '/' :: _ => some (String.mk (afterHost.takeWhile (fun c => c ≠ '?' && c ≠ '#')))
      | _ => some "/"

def coercePathFromUrl : Option String → Option String
  | none => none
  | some u => urlPathname u

/-- Lines 287-308: route-graph enrichment computing `(node_id, edge_id)`. -/
def enrichNodeEdge (evs : List EventRow) (repoId : Nat)
    (m : List (String × Json)) : Option String × Option String :=
  let graph := resolveGraph evs repoId
  let route := asStringField m "route"
  let pageUrl := asStringField m "page_url"
  let prevNodeId := asStringField m "prev_node_id"
  match graph with
  | none => (none, none)
  | some g =>
      if route.isSome || pageUrl.isSome then
        match route.orElse (fun _ => coercePathFromUrl pageUrl) with
        | none => (none, none)
        | some path =>
            let nodes :=
              match g.getField "nodes" with
              | some (.arr xs) => xs
              | _ => []
            let nid := nodeMatchLoop nodes path
            let eid :=
              match nid, prevNodeId with
              | some n, some pv => some (pv ++ "->" ++ n)
              | _, _ => none
            (nid, eid)
      else (none, none)

/-- The stored enriched row (lines 310-320). -/
def ingestRow (db : DB) (p : IngestBody) (now repoId : Nat)
    (nid eid : Option String) : EventRow :=
  { id := db.nextId,
    source := p.source,
    repo_id := repoId,
    commit_sha := none,
    actor := jsNullish ((Json.obj p.metadata).getField "actor") Json.null,
    ts := p.ts.getD now,
    verb := p.verb,
    metadata := Json.obj
      (objSet (objSet p.metadata "node_id" (optJsonStr nid)) "edge_id" (optJsonStr eid)) }

def ingest (db : DB) (p : IngestBody) (now : Nat) : DB × IngestResponse :=
  match repoIdByFull db p.full with
  | none => (db, .badRequest "repo not found")
  | some repoId =>
      let schema := resolveSchema db.events repoId
      match findEventSpec schema p.verb with
      | none =>
          (db, .badRequest ("Unknown event verb \"" ++ p.verb ++ "\" in schema"))
      | some eSpec =>
          match firstMissingRequired eSpec p.metadata with
          | some k =>
              (db, .badRequest ("Missing required field \"" ++ jsToString k
                ++ "\" for " ++ p.verb))
          | none =>
              let ne := enrichNodeEdge db.events repoId p.metadata
              ({ db with
                   events := db.events ++ [ingestRow db p now repoId ne.1 ne.2],
                   nextId := db.nextId + 1 },
               .ok ne.1 ne.2)

/-! ## C5: schema resolution precedence -/

theorem foldl_latest_spec (l : List EventRow) :
    ∀ (acc : Option EventRow) (e : EventRow),
      l.foldl (fun acc e =>
        match acc with
        | none => some e
        | some a => if a.ts < e.ts then some e else some a) acc = some e →
      (acc = some e ∨ e ∈ l) ∧ (∀ x, acc = some x → x.ts ≤ e.ts) ∧
        (∀ x ∈ l, x.ts ≤ e.ts) := by
  induction l with
  | nil =>
      intro acc e h
      refine ⟨Or.inl h, fun x hx => ?_, fun x hx => absurd hx (List.not_mem_nil x)⟩
      rw [hx] at h
      cases h
      exact le_refl _
  | cons a l ih =>
      intro acc e h
      simp only [List.foldl_cons] at h
      cases acc with
      | none =>
          obtain ⟨hmem, hacc, hall⟩ := ih (some a) e h
          have hae : a.ts ≤ e.ts := hacc a rfl
          refine ⟨?_, fun x hx => Option.noConfusion hx, fun x hx => ?_⟩
          · rcases hmem with hm | hm
            · refine Or.inr ?_
              rw [← Option.some_inj.mp hm]
              exact List.mem_cons_self a l
            · exact Or.inr (List.mem_cons_of_mem a hm)
          · rcases List.mem_cons.mp hx with hx | hx
            · rw [hx]; exact hae
            · exact hall x hx
      | some b =>
          by_cases hba : b.ts < a.ts
          · simp only [hba, if_true] at h
            obtain ⟨hmem, hacc, hall⟩ := ih (some a) e h
            have hae : a.ts ≤ e.ts := hacc a rfl
            refine ⟨?_, fun x hx => ?_, fun x hx => ?_⟩
            · rcases hmem with hm | hm
              · refine Or.inr ?_
                rw [← Option.some_inj.mp hm]
                exact List.mem_cons_self a l
              · exact Or.inr (List.mem_cons_of_mem a hm)
            · exact (Option.some_inj.mp hx) ▸ (le_trans (le_of_lt hba) hae)
            · rcases List.mem_cons.mp hx with hx | hx
              · rw [hx]; exact hae
              · exact hall x hx
          · simp only [hba, if_false] at h
            obtain ⟨hmem, hacc, hall⟩ := ih (some b) e h
            have hbe : b.ts ≤ e.ts := hacc b rfl
            refine ⟨?_, fun x hx => ?_, fun x hx => ?_⟩
            · rcases hmem with hm | hm
              · exact Or.inl hm
              · exact Or.inr (List.mem_cons_of_mem a hm)
            · exact (Option.some_inj.mp hx) ▸ hbe
            · rcases List.mem_cons.mp hx with hx | hx
              · rw [hx]; exact le_trans (Nat.le_of_not_lt hba) hbe
              · exact hall x hx

theorem latestEventByVerb_spec (evs : List EventRow) (repoId : Nat)
    (verb : String) (e : EventRow)
    (h : latestEventByVerb evs repoId verb = some e) :
    e ∈ evs ∧ e.repo_id = repoId ∧ e.verb = verb ∧
      ∀ x ∈ evs, x.repo_id = repoId → x.verb = verb → x.ts ≤ e.ts := by
  unfold latestEventByVerb at h
  obtain ⟨hmem, _, hall⟩ := foldl_latest_spec _ none e h
  rcases hmem with hm | hm
  · cases hm
  · have hmf := List.mem_filter.mp hm
    have hpred := hmf.2
    simp only [Bool.and_eq_true, beq_iff_eq] at hpred
    refine ⟨hmf.1, hpred.1, hpred.2, fun x hx hxr hxv => ?_⟩
    exact hall x (List.mem_filter.mpr ⟨hx, by simp [hxr, hxv]⟩)

/-- C5: the resolver returns the latest `schema_override` payload
whenever one exists (with a truthy payload), regardless of its timestamp
relative to `schema` entries; with no override it returns the latest
`schema` payload; with neither it returns the empty schema
`{ events: [] }`.  The last conjunct pins down "latest": the row
`latestEventByVerb` picks has the maximal timestamp for its
`(repo, verb)` key. -/
theorem schema_resolution_precedence :
    (∀ (evs : List EventRow) (repoId : Nat) (e : EventRow) (j : Json),
       latestEventByVerb evs repoId "schema_override" = some e →
       e.metadata.getField "suggested" = some j → jsTruthy j = true →
       resolveSchema evs repoId = j)
    ∧ (∀ (evs : List EventRow) (repoId : Nat) (e : EventRow) (j : Json),
       latestEventByVerb evs repoId "schema_override" = none →
       latestEventByVerb evs repoId "schema" = some e →
       e.metadata.getField "suggested" = some j → jsTruthy j = true →
       resolveSchema evs repoId = j)
    ∧ (∀ (evs : List EventRow) (repoId : Nat),
       latestEventByVerb evs repoId "schema_override" = none →
       latestEventByVerb evs repoId "schema" = none →
       resolveSchema evs repoId = Json.obj [("events", Json.arr [])])
    ∧ (∀ (evs : List EventRow) (repoId : Nat) (verb : String) (e : EventRow),
       latestEventByVerb evs repoId verb = some e →
       e ∈ evs ∧ e.repo_id = repoId ∧ e.verb = verb ∧
         ∀ x ∈ evs, x.repo_id = repoId → x.verb = verb → x.ts ≤ e.ts) := by
  refine ⟨?_, ?_, ?_, latestEventByVerb_spec⟩
  · intro evs repoId e j hovr hsugg htruthy
    unfold resolveSchema suggestedOf
    rw [hovr]
    simp [jsOrElse, hsugg, htruthy]
  · intro evs repoId e j hovr hai hsugg htruthy
    unfold resolveSchema suggestedOf
    rw [hovr, hai]
    simp [jsOrElse, hsugg, htruthy]
  · intro evs repoId hovr hai
    unfold resolveSchema suggestedOf
    rw [hovr, hai]
    rfl

def c5OverridePayload : Json := Json.obj [("events", Json.arr [Json.str "manual"])]

def c5Override : EventRow :=
  { id := 1, source := "ui", repo_id := 7, commit_sha := none,
    actor := Json.str "override", ts := 0, verb := "schema_override",
    metadata := Json.obj [("suggested", c5OverridePayload)] }

def c5AiSchemaPayload : Json :=
  Json.obj [("events", Json.arr
    [Json.obj [("name", Json.str "page_view"),
               ("required", Json.arr [Json.str "page_url"])]])]

def c5AiSchema : EventRow :=
  { id := 2, source := "github", repo_id := 7, commit_sha := some "abc",
    actor := Json.null, ts := 5, verb := "schema",
    metadata := Json.obj [("suggested", c5AiSchemaPayload)] }

/-- C5 witness: an override at `ts = 0` beats an AI schema at `ts = 5`. -/
theorem schema_resolution_precedence_witness :
    resolveSchema [c5AiSchema, c5Override] 7 = c5OverridePayload :=
  schema_resolution_precedence.1 [c5AiSchema, c5Override] 7 c5Override
    c5OverridePayload rfl rfl rfl

/-! ## C6: ingest validation and enrichment -/

theorem getField_objSet_same (m : List (String × Json)) (k : String) (v : Json) :
    (Json.obj (objSet m k v)).getField k = some v := by
  induction m with
  | nil => simp [objSet, Json.getField]
  | cons p rest ih =>
      by_cases hk : p.1 == k
      · simp [objSet, hk, Json.getField, List.find?_cons]
      · simp only [objSet]
        rw [if_neg (by simpa using hk)]
        simp only [Json.getField, List.find?_cons, hk] at ih ⊢
        cases p with
        | mk k1 v1 =>
            simp only at hk
            simp [hk]
            simpa [Json.getField] using ih

theorem getField_objSet_other (m : List (String × Json)) (k k2 : String)
    (v : Json) (h : k ≠ k2) :
    (Json.obj (objSet m k2 v)).getField k = (Json.obj m).getField k := by
  induction m with
  | nil =>
      simp only [objSet, Json.getField, List.find?_cons, List.find?_nil]
      have : (k2 == k) = false := by simpa using fun he => h he.symm
      simp [this]
  | cons p rest ih =>
      by_cases hk : p.1 == k2
      · have hp1 : p.1 = k2 := by simpa using hk
        simp only [objSet]
        rw [if_pos hk]
        simp only [Json.getField, List.find?_cons]
        have : (p.1 == k) = false := by
          simp [hp1]
          exact fun he => h he.symm
        simp [this]
      · simp only [objSet]
        rw [if_neg hk]
        simp only [Json.getField, List.find?_cons] at ih ⊢
        by_cases hpk : p.1 == k
        · simp [hpk]
        · simp only [hpk]
          simpa [Json.getField] using ih

/-- C6: unknown verbs are rejected with an error naming the verb and no
write; a missing required field (presence in `metadata` is the only
check) is rejected with an error naming the field and no write; on
success exactly one row is stored whose metadata is the original
metadata plus `node_id` and `edge_id` (both possibly null), which the
response echoes.  The last two conjuncts pin down the metadata spread:
original keys other than `node_id`/`edge_id` are preserved and the two
derived keys hold the computed values. -/
theorem ingest_validation :
    (∀ (db : DB) (p : IngestBody) (now repoId : Nat),
       repoIdByFull db p.full = some repoId →
       findEventSpec (resolveSchema db.events repoId) p.verb = none →
       ingest db p now
         = (db, IngestResponse.badRequest
             ("Unknown event verb \"" ++ p.verb ++ "\" in schema")))
    ∧ (∀ (db : DB) (p : IngestBody) (now repoId : Nat) (eSpec k : Json),
       repoIdByFull db p.full = some repoId →
       findEventSpec (resolveSchema db.events repoId) p.verb = some eSpec →
       firstMissingRequired eSpec p.metadata = some k →
       k ∈ requiredOf eSpec ∧
       (Json.obj p.metadata).hasKey (jsToString k) = false ∧
       ingest db p now
         = (db, IngestResponse.badRequest
             ("Missing required field \"" ++ jsToString k ++ "\" for " ++ p.verb)))
    ∧ (∀ (eSpec : Json) (m : List (String × Json)),
       firstMissingRequired eSpec m = none →
       ∀ k ∈ requiredOf eSpec, (Json.obj m).hasKey (jsToString k) = true)
    ∧ (∀ (db : DB) (p : IngestBody) (now repoId : Nat) (eSpec : Json),
       repoIdByFull db p.full = some repoId →
       findEventSpec (resolveSchema db.events repoId) p.verb = some eSpec →
       firstMissingRequired eSpec p.metadata = none →
       ingest db p now
         = ({ db with
               events := db.events ++
                 [ingestRow db p now repoId
                    (enrichNodeEdge db.events repoId p.metadata).1
                    (enrichNodeEdge db.events repoId p.metadata).2],
               nextId := db.nextId + 1 },
            IngestResponse.ok (enrichNodeEdge db.events repoId p.metadata).1
              (enrichNodeEdge db.events repoId p.metadata).2))
    ∧ (∀ (m : List (String × Json)) (k : String) (nid eid : Option String),
       k ≠ "node_id" → k ≠ "edge_id" →
       (Json.obj (objSet (objSet m "node_id" (optJsonStr nid)) "edge_id"
           (optJsonStr eid))).getField k = (Json.obj m).getField k)
    ∧ (∀ (m : List (String × Json)) (nid eid : Option String),
       (Json.obj (objSet (objSet m "node_id" (optJsonStr nid)) "edge_id"
           (optJsonStr eid))).getField "node_id" = some (optJsonStr nid) ∧
       (Json.obj (objSet (objSet m "node_id" (optJsonStr nid)) "edge_id"
           (optJsonStr eid))).getField "edge_id" = some (optJsonStr eid)) := by
  refine ⟨?_, ?_, ?_, ?_, ?_, ?_⟩
  · intro db p now repoId hrepo hspec
    simp only [ingest, hrepo, hspec]
  · intro db p now repoId eSpec k hrepo hspec hmiss
    refine ⟨List.mem_of_find?_eq_some hmiss, ?_, ?_⟩
    · have := List.find?_some hmiss
      simpa using this
    · simp only [ingest, hrepo, hspec, hmiss]
  · intro eSpec m hnone k hk
    have := List.find?_eq_none.mp hnone k hk
    simpa using this
  · intro db p now repoId eSpec hrepo hspec hmiss
    simp only [ingest, hrepo, hspec, hmiss]
  · intro m k nid eid h1 h2
    rw [getField_objSet_other _ _ _ _ h2, getField_objSet_other _ _ _ _ h1]
  · intro m nid eid
    refine ⟨?_, getField_objSet_same _ _ _⟩
    rw [getField_objSet_other _ _ _ _ (by decide)]
    exact getField_objSet_same _ _ _

def c6Repo : RepoRow :=
  { id := 7, provider := "github", owner := "acme", name := "site",
    default_branch := "main", installation_id := none }

def c6Db : DB :=
  { repos := [c6Repo], runs := [], events := [c5AiSchema], nextId := 10 }

def c6MissingBody : IngestBody :=
  { full := "acme/site", source := "web", verb := "page_view", ts := none,
    metadata := [] }

/-- C6 witness: posting `page_view` with empty metadata against a schema
requiring `page_url` is rejected naming `page_url`, and nothing is
stored. -/
theorem ingest_validation_witness :
    Json.str "page_url" ∈ requiredOf
        (Json.obj [("name", Json.str "page_view"),
                   ("required", Json.arr [Json.str "page_url"])]) ∧
    (Json.obj c6MissingBody.metadata).hasKey (jsToString (Json.str "page_url")) = false ∧
    ingest c6Db c6MissingBody 99
      = (c6Db, IngestResponse.badRequest
          ("Missing required field \"" ++ jsToString (Json.str "page_url")
            ++ "\" for " ++ c6MissingBody.verb)) :=
  ingest_validation.2.1 c6Db c6MissingBody 99 7
    (Json.obj [("name", Json.str "page_view"),
               ("required", Json.arr [Json.str "page_url"])])
    (Json.str "page_url") rfl rfl rfl

/-! ## C9: route matching (`toRegexFromPattern` + node loop) -/

def c9Nodes : List Json :=
  [Json.obj [("id", Json.str "home"), ("pattern", Json.str "/")],
   Json.obj [("id", Json.str "product"), ("pattern", Json.str "/product/:id")]]

/-- C9, evaluated at the failing input: the placeholder substitutions in
`toRegexFromPattern` require a literal backslash before the colon, which
the escape step never inserts (`:` is not in its metacharacter class),
so `/product/:id` compiles to the literal source `/product/:id`;
`match("/product/42")` yields none — contradicting both the claim and
the comment in the code itself — while the literal path `/product/:id`
matches.  The `/` and `/nope` look-ups behave as claimed. -/
theorem route_matching_colon_never_substituted :
    nodeMatchLoop c9Nodes "/product/42" = none
    ∧ nodeMatchLoop c9Nodes "/" = some "home"
    ∧ nodeMatchLoop c9Nodes "/nope" = none
    ∧ nodeMatchLoop c9Nodes "/product/:id" = some "product"
    ∧ String.mk (toRegexSource (some (Json.str "/product/:id"))) = "/product/:id" := by
  exact ⟨by decide, by decide, by decide, by decide, by decide⟩

/-! ## C7: analyzer worker inference persistence (analyzer-worker.ts
lines 435-502)

```
const text = cc.choices?.[0]?.message?.content?.trim() || '{}';
const schema = JSON.parse(text);
... upsert({ ..., metadata: { ..., suggested: schema } },
           { onConflict: 'repo_id,commit_sha,verb' })
... update({ status: 'completed', ... })
} catch (e) { update({ status: 'failed',
                        summary: { ...(run.summary || {}), error: msg } }) }
```
The inference call and the diff-summary context are external, so the
parsed response is a parameter (`Except` models a `JSON.parse` throw)
and the other metadata fields (`compare`, `base_sha`, ..., everything
before `suggested`) are the `ctx` parameter. -/

def jsonObjFields : Json → List (String × Json)
  | .obj fs => fs
  | _ => []

def schemaEventKey (repoId : Nat) (head : String) (e : EventRow) : Bool :=
  e.repo_id == repoId && e.commit_sha == some head && e.verb == "schema"

/-- The `events` upsert with `onConflict: 'repo_id,commit_sha,verb'`:
a conflicting row has its supplied columns replaced, otherwise a new row
is appended. -/
def upsertSchemaEvent (db : DB) (repoId : Nat) (head : String) (now : Nat)
    (actor meta : Json) : DB :=
  if db.events.any (schemaEventKey repoId head) then
    { db with events := db.events.map (fun e =>
        if schemaEventKey repoId head e then
          { e with source := "github", actor := actor, ts := now, metadata := meta }
        else e) }
  else
    { db with
        events := db.events ++
          [{ id := db.nextId, source := "github", repo_id := repoId,
             commit_sha := some head, actor := actor, ts := now,
             verb := "schema", metadata := meta }],
        nextId := db.nextId + 1 }

def markRun (db : DB) (rid : Nat) (f : RunRow → RunRow) : DB :=
  { db with runs := db.runs.map (fun r => if r.id == rid then f r else r) }

/-- Steps 6-8 of `runOnce` from the parsed inference response onwards:
a parsed response is persisted verbatim as `metadata.suggested` and the
run is marked completed; a `JSON.parse` failure falls to the catch
block, which marks the run failed with the error text merged into its
summary.  No shape validation happens in between. -/
def analyzerHandleInference (db : DB) (run : RunRow) (head : String)
    (now : Nat) (ctx : List (String × Json)) (actor model : Json)
    (parsed : Except String Json) : DB :=
  match parsed with
  | .error msg =>
      markRun db run.id (fun r =>
        { r with status := RunStatus.failed,
                 summary := Json.obj (objSet (jsonObjFields run.summary) "error"
                   (Json.str msg)) })
  | .ok schema =>
      let db1 := upsertSchemaEvent db run.repo_id head now actor
        (Json.obj (ctx ++ [("suggested", schema)]))
      markRun db1 run.id (fun r =>
        { r with status := RunStatus.completed,
                 framework := some (jsToString model),
                 summary := Json.obj (objSet (jsonObjFields run.summary) "schema"
                   (Json.obj [("head_sha", Json.str head),
                              ("event_count",
                               Json.num (Int.ofNat (eventsOf schema).length))])) })

/-- Modelled from the spec: the top-level shape the worker is supposed
to validate — `events` and `snippets` present and array-typed (spec
§4.4 step 6). -/
def specValidTopLevelShape (j : Json) : Bool :=
  (match j.getField "events" with
   | some (.arr _) => true
   | _ => false)
  && (match j.getField "snippets" with
      | some (.arr _) => true
      | _ => false)

/-- Modelled from part_005 (`getDefaultContextualSchema`, non-demo
branch): the minimal fallback schema the TRACKER GENERATOR — not the
analyzer worker — substitutes when its own analysis call fails. -/
def getDefaultContextualSchemaEvents : Json :=
  Json.arr
    [Json.obj
      [("name", Json.str "page_view"),
       ("required", Json.arr
         [Json.str "app_key", Json.str "session_id", Json.str "user_id",
          Json.str "ts", Json.str "page_url"]),
       ("optional", Json.arr [Json.str "page_title", Json.str "referrer"])],
     Json.obj
      [("name", Json.str "interaction"),
       ("required", Json.arr
         [Json.str "app_key", Json.str "session_id", Json.str "user_id",
          Json.str "ts", Json.str "element_type", Json.str "action"]),
       ("optional", Json.arr [Json.str "element_text"])]]

def c7Run : RunRow :=
  { id := 3, repo_id := 7, commit_sha := some "deadbee",
    framework := none, status := RunStatus.running, event_type := "push",
    summary := Json.obj [] }

def c7Db : DB := { repos := [c6Repo], runs := [c7Run], events := [], nextId := 20 }

/-- C7 counterexample: on the parsed-but-malformed inference output
`{}` (no `events`, no `snippets`) the analyzer worker persists the
malformed payload verbatim as `metadata.suggested` and marks the run
completed — it neither validates the top-level shape nor substitutes
any fallback schema. -/
theorem analyzer_no_shape_validation :
    ((analyzerHandleInference c7Db c7Run "deadbee" 50 [] Json.null
        (Json.str "openai:gpt-4o-mini") (Except.ok (Json.obj []))).events.map
      (fun e => (e.verb, e.metadata.getField "suggested")))
      = [("schema", some (Json.obj []))]
    ∧ specValidTopLevelShape (Json.obj []) = false
    ∧ ((analyzerHandleInference c7Db c7Run "deadbee" 50 [] Json.null
        (Json.str "openai:gpt-4o-mini") (Except.ok (Json.obj []))).runs.map
      (fun r => r.status)) = [RunStatus.completed] :=
  ⟨rfl, rfl, rfl⟩

theorem find?_map_keyPreserving {α : Type} (p : α → Bool) (f : α → α)
    (hf : ∀ x, p x = true → p (f x) = true) (l : List α) :
    (l.map (fun x => if p x then f x else x)).find? p
      = (l.find? p).map f := by
  induction l with
  | nil => rfl
  | cons a l ih =>
      by_cases ha : p a
      · simp [List.find?_cons, ha, hf a ha]
      · simp [List.find?_cons, ha, ih]

/-- C7 amended: the analyzer worker performs no top-level shape check —
every parseable inference output, valid shape or not, is persisted
verbatim as the schema event payload under the
`(repo, head_sha, 'schema')` key, and an unparsable output takes the
catch path: the run is marked failed with the error text and no event is
written. -/
theorem analyzer_persists_inference_verbatim
    (db : DB) (run : RunRow) (head : String) (now : Nat)
    (ctx : List (String × Json)) (actor model : Json) (j : Json)
    (msg : String)
    (hctx : ∀ p ∈ ctx, p.1 ≠ "suggested") :
    (((analyzerHandleInference db run head now ctx actor model
         (Except.ok j)).events.find? (schemaEventKey run.repo_id head)).map
       (fun e => e.metadata.getField "suggested") = some (some j))
    ∧ (analyzerHandleInference db run head now ctx actor model
        (Except.error msg)).events = db.events
    ∧ (analyzerHandleInference db run head now ctx actor model
        (Except.error msg)).runs
      = db.runs.map (fun r => if r.id == run.id then
          { r with status := RunStatus.failed,
                   summary := Json.obj (objSet (jsonObjFields run.summary) "error"
                     (Json.str msg)) } else r) := by
  have hnone : ctx.find? (fun p => p.1 == "suggested") = none := by
    rw [List.find?_eq_none]
    intro p hp
    simpa using hctx p hp
  have hmeta : (Json.obj (ctx ++ [("suggested", j)])).getField "suggested" = some j := by
    simp only [Json.getField]
    rw [List.find?_append, hnone]
    rfl
  refine ⟨?_, rfl, rfl⟩
  simp only [analyzerHandleInference, upsertSchemaEvent, markRun]
  by_cases hex : db.events.any (schemaEventKey run.repo_id head) = true
  · rw [if_pos hex]
    dsimp only
    rw [find?_map_keyPreserving (schemaEventKey run.repo_id head) _
        (fun x hx => by
          unfold schemaEventKey at hx ⊢
          exact hx)
        db.events]
    have hsome : (db.events.find? (schemaEventKey run.repo_id head)).isSome := by
      rw [List.find?_isSome]
      simpa using List.any_eq_true.mp hex
    obtain ⟨e, hfe⟩ := Option.isSome_iff_exists.mp hsome
    rw [hfe]
    simp [hmeta]
  · rw [if_neg hex]
    dsimp only
    rw [List.find?_append]
    have hnone2 : db.events.find? (schemaEventKey run.repo_id head) = none := by
      rw [List.find?_eq_none]
      intro x hx
      have := List.any_eq_false.mp (Bool.eq_false_iff.mpr hex) x hx
      simpa using this
    rw [hnone2]
    have hkey : schemaEventKey run.repo_id head
        { id := db.nextId, source := "github", repo_id := run.repo_id,
          commit_sha := some head, actor := actor, ts := now,
          verb := "schema", metadata := Json.obj (ctx ++ [("suggested", j)]) } = true := by
      simp [schemaEventKey]
    simp [List.find?_cons, hkey, hmeta]

/-- C7 witness for the amended claim at a concrete malformed payload. -/
theorem analyzer_persists_inference_verbatim_witness :
    (((analyzerHandleInference c7Db c7Run "deadbee" 50 [] Json.null
         (Json.str "m") (Except.ok (Json.obj [("oops", Json.num 1)]))).events.find?
        (schemaEventKey c7Run.repo_id "deadbee")).map
       (fun e => e.metadata.getField "suggested")
       = some (some (Json.obj [("oops", Json.num 1)])))
    ∧ (analyzerHandleInference c7Db c7Run "deadbee" 50 [] Json.null
        (Json.str "m") (Except.error "Unexpected token")).events = c7Db.events
    ∧ (analyzerHandleInference c7Db c7Run "deadbee" 50 [] Json.null
        (Json.str "m") (Except.error "Unexpected token")).runs
      = c7Db.runs.map (fun r => if r.id == c7Run.id then
          { r with status := RunStatus.failed,
                   summary := Json.obj (objSet (jsonObjFields c7Run.summary) "error"
                     (Json.str "Unexpected token")) } else r) :=
  analyzer_persists_inference_verbatim c7Db c7Run "deadbee" 50 [] Json.null
    (Json.str "m") (Json.obj [("oops", Json.num 1)]) "Unexpected token"
    (fun p hp => absurd hp (List.not_mem_nil p))

/-! ## `src/routes/schema.ts`: `POST /schema/approve` (C3 / C4)

The GitHub hosting API is modelled as explicit state: `contentAt` is the
set of `(ref, path)` pairs `repos.getContent` answers 200 for (404
otherwise), `refs` the branch refs, `openPRs` the open pull requests,
`commits` the commit objects created through the git data API.  Commit
shas minted by `createCommit` are `gensha-<n>`.  The approve route only
ever reads content at `ref = commit_sha`, so writing a commit records it
in `commits`/`refs` without touching `contentAt`. -/

structure PR where
  number : Nat
  url : String
  headBranch : String
  baseBranch : String
  deriving Repr, DecidableEq

structure GhState where
  contentAt : List (String × String)
  refs : List (String × String)
  openPRs : List PR
  commits : List (String × String × List (String × String))
  defaultBranch : String
  nextSha : Nat
  nextPrNumber : Nat
  deriving Repr, DecidableEq

structure ApproveArgs where
  full : String
  commit_sha : String
  files : Option (List (String × String))
  force : Bool

inductive ApproveResponse where
  | conflict (collisions : List String)
  | prExists (number : Nat) (url : String) (branch : String)
  | created (mode : String) (number : Nat) (url : String) (branch : String)
      (headCommit : String)
  | serverError (msg : String)
  deriving Repr, DecidableEq

/-- `aa/analytics-auto-${sha.slice(0,8)}` (line 39). -/
def branchNameFromCommit (sha : String) : String :=
  String.mk ("aa/analytics-auto-".data ++ sha.data.take 8)

def getRepoRow (db : DB) (owner name : String) : Option RepoRow :=
  db.repos.find? (repoKeyMatches owner name)

def contentExists (content : List (String × String)) (path ref : String) : Bool :=
  content.any (fun pr => pr.1 == ref && pr.2 == path)

/-- Bootstrap detection (lines 160-167): 404 on the contract file at the
commit means bootstrap. -/
def isBootstrap (content : List (String × String)) (sha : String) : Bool :=
  !(contentExists content ".analytics/contract.json" sha)

def hasSubstr (sub : List Char) : List Char → Bool
  | [] => sub.isEmpty
  | c :: cs => listStartsWith sub (c :: cs) || hasSubstr sub cs

/-- `sanitizePath` (lines 30-33): leading `/` or a `..` anywhere throws. -/
def sanitizePath (p : String) : Except String String :=
  if listStartsWith "/".data p.data || hasSubstr ['.', '.'] p.data then
    Except.error ("Unsafe path \"" ++ p ++ "\"")
  else Except.ok p

/-- Contents of the fixed bootstrap scaffolding files (`CONTRACT_JSON`,
`README_MD`, `FIRE_TS`, `ADAPTER_TS`, `TRACKER_TS` and the empty adapter
map, lines 103-153 and 183).  Their text is long TS/JSON literal content
that no modelled behaviour ever inspects — only the paths are consulted
by the conflict check — so the strings are abbreviated placeholders. -/
def CONTRACT_JSON : String := "analytics-core-contract v1 (contract JSON literal)"
def README_MD : String := "# Analytics (Auto) (readme literal)"
def FIRE_TS : String := "export function aaFire (dispatch shim literal)"
def ADAPTER_TS : String := "initAAAdapter (DOM adapter literal)"
def TRACKER_TS : String := "aa:track listener (network tracker literal)"
def EMPTY_ADAPTER_MAP : String := "routes buttons forms modals search (empty template)"

/-- The `events` row for `(repo_id, verb = 'schema', commit_sha)`. -/
def schemaEventAt (db : DB) (repoId : Nat) (sha : String) : Option EventRow :=
  db.events.find? (fun e =>
    e.repo_id == repoId && e.verb == "schema" && e.commit_sha == some sha)

def suggestedAt (db : DB) (repoId : Nat) (sha : String) : Option Json :=
  (schemaEventAt db repoId sha).bind (fun e => e.metadata.getField "suggested")

/-- Lines 181-191: the adapter map file content — the suggestion's
`adapterMap` if truthy (stringified), else the empty template. -/
def adapterMapContent (db : DB) (repoId : Nat) (sha : String) : String :=
  match (suggestedAt db repoId sha).bind (fun s => s.getField "adapterMap") with
  | some m => if jsTruthy m then jsToString m else EMPTY_ADAPTER_MAP
  | none => EMPTY_ADAPTER_MAP

def bootstrapFiles (db : DB) (repoId : Nat) (sha : String) :
    List (String × String) :=
  [(".analytics/contract.json", CONTRACT_JSON),
   (".analytics/adapter.map.json", adapterMapContent db repoId sha),
   (".analytics/README.md", README_MD),
   ("src/aa/fire.ts", FIRE_TS),
   ("src/aa/adapter.ts", ADAPTER_TS),
   ("src/aa/tracker.ts", TRACKER_TS)]

def snippetFile (s : Json) : Except String (String × String) :=
  match s.getField "path" with
  | some (.str p) =>
      match sanitizePath p with
      | .error e => .error e
      | .ok p2 =>
          .ok (p2, match s.getField "content" with
                   | some (.str c) => c
                   | some .null | none => ""
                   | some other => jsToString other)
  | _ => .error "Unsafe path \"undefined\""

/-- Lines 169-200: caller-supplied files when the array is non-empty
(`inputFiles?.length` is falsy for `[]`), else the suggestion's
snippets; bootstrap mode appends the fixed scaffolding. -/
def assembleFiles (db : DB) (content : List (String × String)) (repoId : Nat)
    (a : ApproveArgs) : Except String (List (String × String)) :=
  let base : Except String (List (String × String)) :=
    match a.files with
    | some (f :: fs) =>
        (f :: fs).mapM (fun fc =>
          match sanitizePath fc.1 with
          | .error e => .error e
          | .ok p => .ok (p, fc.2))
    | _ =>
        match (suggestedAt db repoId a.commit_sha).bind
            (fun s => s.getField "snippets") with
        | some (.arr xs) => xs.mapM snippetFile
        | some .null | none => .ok []
        | some _ => .error "forEach is not a function"
  match base with
  | .error e => .error e
  | .ok fs =>
      if isBootstrap content a.commit_sha then
        .ok (fs ++ bootstrapFiles db repoId a.commit_sha)
      else .ok fs

/-- Lines 203-207: every assembled path that already exists at
`commit_sha`, in file order. -/
def collisionsOf (content : List (String × String)) (sha : String)
    (files : List (String × String)) : List String :=
  (files.map (fun f => f.1)).filter (fun p => contentExists content p sha)

def genSha (n : Nat) : String := "gensha-" ++ toString n

def prUrl (owner name : String) (n : Nat) : String :=
  "https://github.com/" ++ owner ++ "/" ++ name ++ "/pull/" ++ toString n

/-- The whole `POST /schema/approve` handler after body validation
(lines 95-271). -/
def approve (db : DB) (g : GhState) (a : ApproveArgs) :
    GhState × ApproveResponse :=
  let p := parseFullName a.full
  match getRepoRow db p.1 p.2 with
  | none => (g, .serverError ("Repo " ++ p.1 ++ "/" ++ p.2 ++ " not found in DB"))
  | some row =>
      match assembleFiles db g.contentAt row.id a with
      | .error msg => (g, .serverError msg)
      | .ok files =>
          let collisions := collisionsOf g.contentAt a.commit_sha files
          if collisions.length != 0 && !a.force then
            (g, .conflict collisions)
          else
            let branch := branchNameFromCommit a.commit_sha
            match g.openPRs.filter (fun pr => pr.headBranch == branch) with
            | pr :: _ => (g, .prExists pr.number pr.url branch)
            | [] =>
                let refLookup := g.refs.find? (fun r => r.1 == branch)
                let baseFor :=
                  match refLookup with
                  | some r => r.2
                  | none => a.commit_sha
                let g2 :=
                  match refLookup with
                  | some _ => g
                  | none => { g with refs := g.refs ++ [(branch, a.commit_sha)] }
                let newSha := genSha g2.nextSha
                let g3 := { g2 with
                  commits := g2.commits ++ [(newSha, baseFor, files)],
                  nextSha := g2.nextSha + 1 }
                let g4 := { g3 with
                  refs := g3.refs.map (fun r : String × String =>
                    if r.1 == branch then (r.1, newSha) else r) }
                let baseBranch :=
                  if g.defaultBranch == "" then "main" else g.defaultBranch
                let newPR : PR :=
                  { number := g4.nextPrNumber, url := prUrl p.1 p.2 g4.nextPrNumber,
                    headBranch := branch, baseBranch := baseBranch }
                let g5 := { g4 with
                  openPRs := g4.openPRs ++ [newPR],
                  nextPrNumber := g4.nextPrNumber + 1 }
                (g5, .created
                  (if isBootstrap g.contentAt a.commit_sha then "bootstrap" else "delta")
                  newPR.number newPR.url branch newSha)

/-! ## C4: conflict check is all-or-nothing and writes nothing -/

/-- C4: if any assembled file already exists at `commit_sha` and `force`
is unset, approve answers a conflict listing exactly the colliding paths
(second conjunct: a path is listed iff it is an assembled path existing
at the commit) and the hosting-side state is returned unchanged — no
branch, blob, tree, commit, or ref update. -/
theorem approve_conflict_all_or_nothing
    (db : DB) (g : GhState) (a : ApproveArgs) (row : RepoRow)
    (files : List (String × String))
    (hrow : getRepoRow db (parseFullName a.full).1 (parseFullName a.full).2
      = some row)
    (hasm : assembleFiles db g.contentAt row.id a = Except.ok files)
    (hcoll : collisionsOf g.contentAt a.commit_sha files ≠ [])
    (hforce : a.force = false) :
    approve db g a
      = (g, ApproveResponse.conflict (collisionsOf g.contentAt a.commit_sha files))
    ∧ ∀ p2 : String, p2 ∈ collisionsOf g.contentAt a.commit_sha files ↔
        (p2 ∈ files.map (fun f => f.1)
         ∧ contentExists g.contentAt p2 a.commit_sha = true) := by
  constructor
  · have hlen : (collisionsOf g.contentAt a.commit_sha files).length ≠ 0 :=
      fun h0 => hcoll (List.length_eq_zero.mp h0)
    have hc : ((collisionsOf g.contentAt a.commit_sha files).length != 0
        && !a.force) = true := by
      rw [hforce]
      simpa using hlen
    simp only [approve, hrow, hasm, hc, if_true]
  · intro p2
    simp [collisionsOf, List.mem_filter]

def c4Repo : RepoRow :=
  { id := 9, provider := "github", owner := "acme", name := "site",
    default_branch := "main", installation_id := some "44" }

def c4Db : DB := { repos := [c4Repo], runs := [], events := [], nextId := 30 }

def c4Gh : GhState :=
  { contentAt := [("c0ffee42", "src/x.ts"), ("c0ffee42", ".analytics/contract.json")],
    refs := [], openPRs := [], commits := [], defaultBranch := "main",
    nextSha := 0, nextPrNumber := 1 }

def c4Args : ApproveArgs :=
  { full := "acme/site", commit_sha := "c0ffee42",
    files := some [("src/x.ts", "content")], force := false }

/-- C4 witness: the colliding explicit file yields a 409 listing exactly
that path, with the hosting state untouched. -/
theorem approve_conflict_all_or_nothing_witness :
    approve c4Db c4Gh c4Args
      = (c4Gh, ApproveResponse.conflict
          (collisionsOf c4Gh.contentAt c4Args.commit_sha [("src/x.ts", "content")]))
    ∧ ∀ p2 : String, p2 ∈ collisionsOf c4Gh.contentAt c4Args.commit_sha
          [("src/x.ts", "content")] ↔
        (p2 ∈ [("src/x.ts", "content")].map (fun f => f.1)
         ∧ contentExists c4Gh.contentAt p2 c4Args.commit_sha = true) :=
  approve_conflict_all_or_nothing c4Db c4Gh c4Args c4Repo
    [("src/x.ts", "content")] rfl rfl (by decide) rfl

/-! ## C3: approve is idempotent per `(repository, commit_sha)` -/

/-- C3: the branch name is the fixed prefix plus the first 8 characters
of the sha; a first successful approve opens one pull request on that
branch and a second identical call with no intervening change returns
`status: exists` with the same PR number and URL, leaves the hosting
state untouched, and the branch still has exactly one open PR. -/
theorem approve_idempotent
    (db : DB) (g : GhState) (a : ApproveArgs) (row : RepoRow)
    (files : List (String × String))
    (hrow : getRepoRow db (parseFullName a.full).1 (parseFullName a.full).2
      = some row)
    (hasm : assembleFiles db g.contentAt row.id a = Except.ok files)
    (hcoll : (collisionsOf g.contentAt a.commit_sha files).length = 0
      ∨ a.force = true)
    (hnopr : g.openPRs.filter
        (fun pr => pr.headBranch == branchNameFromCommit a.commit_sha) = []) :
    branchNameFromCommit a.commit_sha
      = String.mk ("aa/analytics-auto-".data ++ a.commit_sha.data.take 8)
    ∧ ∃ (g1 : GhState) (mode : String) (n : Nat) (url headSha : String),
        approve db g a
          = (g1, ApproveResponse.created mode n url
              (branchNameFromCommit a.commit_sha) headSha)
        ∧ approve db g1 a
          = (g1, ApproveResponse.prExists n url (branchNameFromCommit a.commit_sha))
        ∧ (g1.openPRs.filter
            (fun pr => pr.headBranch == branchNameFromCommit a.commit_sha)).length
          = 1 := by
  have hc : ((collisionsOf g.contentAt a.commit_sha files).length != 0
      && !a.force) = false := by
    rcases hcoll with h0 | hf
    · simp [h0]
    · simp [hf]
  refine ⟨rfl, ?_⟩
  rcases href : g.refs.find?
      (fun r => r.1 == branchNameFromCommit a.commit_sha) with _ | r0
  · simp only [approve, hrow, hasm, hc, Bool.false_eq_true, if_false, hnopr, href]
    refine ⟨_, _, _, _, _, rfl, ?_, ?_⟩
    · simp only [approve, hrow]
      dsimp only
      rw [hasm]
      simp only [hc, Bool.false_eq_true, if_false]
      rw [List.filter_append, hnopr]
      simp [List.filter_cons]
    · dsimp only
      rw [List.filter_append, hnopr]
      simp [List.filter_cons]
  · simp only [approve, hrow, hasm, hc, Bool.false_eq_true, if_false, hnopr, href]
    refine ⟨_, _, _, _, _, rfl, ?_, ?_⟩
    · simp only [approve, hrow]
      dsimp only
      rw [hasm]
      simp only [hc, Bool.false_eq_true, if_false]
      rw [List.filter_append, hnopr]
      simp [List.filter_cons]
    · dsimp only
      rw [List.filter_append, hnopr]
      simp [List.filter_cons]

def c3Gh : GhState :=
  { contentAt := [], refs := [], openPRs := [], commits := [],
    defaultBranch := "main", nextSha := 0, nextPrNumber := 1 }

def c3Args : ApproveArgs :=
  { full := "acme/site", commit_sha := "c0ffee42",
    files := some [("src/app.ts", "x")], force := false }

/-- C3 witness: a concrete first approve creates the PR, the identical
second call returns `exists` with the same number and URL, and exactly
one open PR targets the branch. -/
theorem approve_idempotent_witness :
    branchNameFromCommit c3Args.commit_sha
      = String.mk ("aa/analytics-auto-".data ++ c3Args.commit_sha.data.take 8)
    ∧ ∃ (g1 : GhState) (mode : String) (n : Nat) (url headSha : String),
        approve c4Db c3Gh c3Args
          = (g1, ApproveResponse.created mode n url
              (branchNameFromCommit c3Args.commit_sha) headSha)
        ∧ approve c4Db g1 c3Args
          = (g1, ApproveResponse.prExists n url (branchNameFromCommit c3Args.commit_sha))
        ∧ (g1.openPRs.filter
            (fun pr => pr.headBranch == branchNameFromCommit c3Args.commit_sha)).length
          = 1 :=
  approve_idempotent c4Db c3Gh c3Args c4Repo
    ([("src/app.ts", "x")] ++ bootstrapFiles c4Db 9 "c0ffee42")
    rfl rfl (Or.inl rfl) rfl

end AA
